import Mathlib

/-!
Verification of the RustyInvaders 2D raster engine (src/engine.rs, src/game.rs).

Modelling conventions:
* Rust `usize` and `u8` values are modelled as `Nat`.  The only machine-width
  effect the source exercises is `usize` subtraction underflow, which in a
  debug build aborts the program (in a release build it wraps, and every
  wrapped index the source produces is then rejected by the `in_range`
  check); it is modelled explicitly by the checked subtraction `csub`,
  whose `none` result propagates as the abort.  Machine-width overflow of
  addition is not exercised by any claim and positions are unbounded here.
* Aborts (Rust `panic`) are modelled as `none` (for `Option`-valued
  operations) or as an `Except` error carrying the failure kind where the
  distinction between failure kinds matters (`Board.update`).
* `Array2D<T: Copy>` is monomorphised to its only instantiation `u8`;
  cell values only ever undergo equality comparison.
-/

namespace Invaders

/-- Board position, `(0,0)` top-left (src/engine.rs `Position`). -/
structure Position where
  x : Nat
  y : Nat
deriving DecidableEq, Repr

/-- Row-major 2D array (src/engine.rs `Array2D`), monomorphised to `u8` cells. -/
structure Array2D where
  elements : List Nat
  rows : Nat
  cols : Nat
deriving DecidableEq, Repr

/-- Model of `Array2D::in_range` (src/engine.rs line 63). -/
def Array2D.inRange (a : Array2D) (p : Position) : Bool :=
  p.x < a.cols && p.y < a.rows

/-- Model of `Array2D::new` (src/engine.rs line 48): filled with the default value
when the flag is set, otherwise left empty. -/
def Array2D.new (cols rows : Nat) (default : Bool × Nat) : Array2D :=
  { cols := cols, rows := rows
    elements := if default.1 then List.replicate (rows * cols) default.2 else [] }

/-- The `Index<Position>` impl (src/engine.rs line 104): `none` models the
abort, either from the explicit out-of-range check or from the backing
vector being shorter than `rows*cols` (slice abort). -/
def Array2D.indexE (a : Array2D) (p : Position) : Option Nat :=
  if a.inRange p then a.elements.get? (p.y * a.cols + p.x) else none

/-- The `IndexMut<Position>` impl (src/engine.rs line 115) used for writes. -/
def Array2D.setE (a : Array2D) (p : Position) (v : Nat) : Option Array2D :=
  if a.inRange p then
    if p.y * a.cols + p.x < a.elements.length then
      some { a with elements := a.elements.set (p.y * a.cols + p.x) v }
    else none
  else none

/-- Two-tone bitmap (src/engine.rs `Bitmap`). -/
structure Bitmap where
  data : Array2D
  foreground : Nat
  background : Nat
deriving DecidableEq, Repr

/-- Model of `Bitmap::new` (src/engine.rs line 137). -/
def Bitmap.new (cols rows fg bg : Nat) : Bitmap :=
  { data := Array2D.new cols rows (true, bg), foreground := fg, background := bg }

/-- Enumeration of the grid positions in the order the nested
`for y in 0..rows { for x in 0..cols { .. } }` loops of the source visit
them (row-major). -/
def allPositions (rows cols : Nat) : List Position :=
  (List.range rows).flatMap fun y => (List.range cols).map fun x => ⟨x, y⟩

/-- One write of the `Bitmap::reset` loop body (src/engine.rs line 186):
`self.data[pos] = self.background`, via the checked write. -/
def resetStep (b : Bitmap) (p : Position) : Option Bitmap :=
  (b.data.setE p b.background).map fun d => { b with data := d }

/-- Model of `Bitmap::reset` (src/engine.rs line 181): set every in-range cell to
`self.background`, via the checked write; `none` models the abort. -/
def Bitmap.reset (bm : Bitmap) : Option Bitmap :=
  (allPositions bm.data.rows bm.data.cols).foldlM resetStep bm

/-- Checked `usize` subtraction: `none` is the underflow abort. -/
def csub (a b : Nat) : Option Nat :=
  if b ≤ a then some (a - b) else none

/-- Axis-aligned rectangle (src/engine.rs `Rectangle`, used by `Sprite`). -/
structure Rectangle where
  top_left : Position
  bottom_right : Position
deriving DecidableEq, Repr

/-- Positioned sprite (src/game.rs `Sprite`). -/
structure Sprite where
  pixels : Bitmap
  pos : Position
  bounds : Rectangle
deriving DecidableEq, Repr

/-- Model of `Sprite::new` (src/game.rs line 26).  The bottom-right corner is
`pos + (cols-1, rows-1)` in `usize` arithmetic; the `-1` is checked, so the
construction aborts (`none`) exactly when `pos.x + cols` or `pos.y + rows`
is zero. -/
def Sprite.new (cols rows fg bg : Nat) (pos : Option Position) : Option Sprite :=
  let newPos := pos.getD ⟨0, 0⟩
  match csub (newPos.x + cols) 1, csub (newPos.y + rows) 1 with
  | some brx, some bry =>
    some { pixels := Bitmap.new cols rows fg bg
           pos := newPos
           bounds := { top_left := ⟨newPos.x, newPos.y⟩, bottom_right := ⟨brx, bry⟩ } }
  | _, _ => none

/-- Model of `Sprite::get_pixel_at` (src/game.rs line 61).  The outer `Option` is
the abort (`none` = the program aborts), the inner `Option` is the Rust
return value.  Faithful to the source: the normalisation subtracts the
query point FROM the sprite position (`pos - point`), which underflows for
any query strictly right of / below `pos`. -/
def Sprite.getPixelAt (s : Sprite) (point : Position) : Option (Option Nat) :=
  if point.x < s.pos.x || point.y < s.pos.y then
    some none
  else
    match csub s.pos.x point.x, csub s.pos.y point.y with
    | some nx, some ny =>
      let normalPoint : Position := ⟨nx, ny⟩
      if s.pixels.data.inRange normalPoint then
        match s.pixels.data.indexE normalPoint with
        | some v => some (some v)
        | none => none
      else
        some none
    | _, _ => none

/-- The broad-phase disjointness test of `Sprite::intersect`
(src/game.rs lines 107-110), on the destructured rectangle sides. -/
def Sprite.rectDisjoint (s other : Sprite) : Bool :=
  decide (other.bounds.top_left.x > s.bounds.bottom_right.x) ||
  decide (other.bounds.top_left.y > s.bounds.bottom_right.y) ||
  decide (other.bounds.bottom_right.x < s.bounds.top_left.x) ||
  decide (other.bounds.bottom_right.y < s.bounds.top_left.y)

/-- Rust inclusive range `lo..=hi` as a list (empty when `lo > hi`). -/
def rangeIncl (lo hi : Nat) : List Nat :=
  (List.range (hi + 1 - lo)).map fun i => lo + i

/-- The coordinates the narrow phase of `Sprite::intersect` scans
(src/game.rs lines 116-122): the overlapping sub-rectangle, rows outer. -/
def Sprite.commonPoints (s other : Sprite) : List Position :=
  (rangeIncl (max s.bounds.top_left.y other.bounds.top_left.y)
             (min s.bounds.bottom_right.y other.bounds.bottom_right.y)).flatMap fun cy =>
    (rangeIncl (max s.bounds.top_left.x other.bounds.top_left.x)
               (min s.bounds.bottom_right.x other.bounds.bottom_right.x)).map fun cx =>
      (⟨cx, cy⟩ : Position)

/-- The narrow-phase scan of `Sprite::intersect` (src/game.rs lines
121-133): at each coordinate fetch both pixels (aborting if a fetch
aborts), return `true` at the first coordinate where both equal their own
sprite's foreground. -/
def Sprite.scanPoints (s other : Sprite) : List Position → Option Bool
  | [] => some false
  | q :: rest =>
    match s.getPixelAt q with
    | none => none
    | some selfPixel =>
      match other.getPixelAt q with
      | none => none
      | some otherPixel =>
        let bothFg : Bool := match selfPixel, otherPixel with
          | some sp, some op => sp == s.pixels.foreground && op == other.pixels.foreground
          | _, _ => false
        if bothFg then some true else s.scanPoints other rest

/-- Model of `Sprite::intersect` (src/game.rs line 81): broad phase then narrow
phase; `none` models the abort (reachable through `get_pixel_at`). -/
def Sprite.intersect (s other : Sprite) : Option Bool :=
  if s.rectDisjoint other then some false
  else s.scanPoints other (s.commonPoints other)

/-- The game board (src/game.rs `Board`). -/
structure Board where
  sprites : List Sprite
  screen : Bitmap
deriving DecidableEq, Repr

/-- Model of `Board::new` (src/game.rs line 161). -/
def Board.new (cols rows fg bg : Nat) : Board :=
  { sprites := [], screen := Bitmap.new cols rows fg bg }

/-- The admission scan of `Board::add_sprite` (src/game.rs lines 212-218):
walk the admitted sprites in order, stopping at the first `intersect`
returning `true` (or at an abort, `none`). -/
def anyIntersect : List Sprite → Sprite → Option Bool
  | [], _ => some false
  | s :: rest, newsprite =>
    match s.intersect newsprite with
    | none => none
    | some true => some true
    | some false => anyIntersect rest newsprite

/-- Model of `Board::add_sprite` (src/game.rs line 211): reject (returning the
board unchanged, no error) when some admitted sprite intersects the
candidate, append otherwise.  `none` models an abort inside `intersect`. -/
def Board.addSprite (b : Board) (newsprite : Sprite) : Option Board :=
  match anyIntersect b.sprites newsprite with
  | none => none
  | some true => some b
  | some false => some { b with sprites := b.sprites ++ [newsprite] }

/-- The two abort kinds reachable from `Board::update`: the out-of-range
abort raised by `Array2D` indexing, and the "Failed to update board" abort
raised when a target screen cell is not background (the board-invariant
violation). -/
inductive UpdateFailure where
  | outOfRange
  | invariantViolation
deriving DecidableEq, Repr

/-- One iteration of the innermost loop of `Board::update`
(src/game.rs lines 190-194), at local cell `p` of sprite `s`: read the
screen cell at the translated position (abort out-of-range if the sprite
pokes outside the screen), require it to equal the screen background
(abort with the invariant violation otherwise), then copy the sprite cell. -/
def updateCell (scr : Bitmap) (s : Sprite) (p : Position) : Except UpdateFailure Bitmap :=
  match scr.data.indexE ⟨p.x + s.pos.x, p.y + s.pos.y⟩ with
  | none => .error .outOfRange
  | some v =>
    if v ≠ scr.background then .error .invariantViolation
    else
      match s.pixels.data.indexE p with
      | none => .error .outOfRange
      | some w =>
        match scr.data.setE ⟨p.x + s.pos.x, p.y + s.pos.y⟩ w with
        | none => .error .outOfRange
        | some d => .ok { scr with data := d }

/-- The per-sprite double loop of `Board::update` (src/game.rs lines
188-197): every local cell of the sprite's bitmap, row-major. -/
def spriteWrite (scr : Bitmap) (s : Sprite) : Except UpdateFailure Bitmap :=
  (allPositions s.pixels.data.rows s.pixels.data.cols).foldlM
    (fun sc p => updateCell sc s p) scr

/-- Model of `Board::update` (src/game.rs line 184): reset the screen to
background, then copy every admitted sprite in insertion order. -/
def Board.update (b : Board) : Except UpdateFailure Board :=
  match b.screen.reset with
  | none => .error .outOfRange
  | some scr0 =>
    match b.sprites.foldlM (fun sc s => spriteWrite sc s) scr0 with
    | .error e => .error e
    | .ok scr => .ok { b with screen := scr }

/-! Model of the derived JSON deserialization (`Bitmap::build_from_str`)

`Bitmap::build_from_str` (src/engine.rs line 145) hands the text to
`serde_json` with the derived `Deserialize` impls and aborts on a parse
error.  The JSON text-to-value step is abstracted: the input is modelled
as an already-parsed JSON value (numbers restricted to integers, which
covers every record the claims touch).  The derived impls are modelled
field by field: a missing or mistyped required field fails, unknown fields
are ignored (serde's default), `u8`/`usize` reject out-of-range numbers,
and — exactly as in the source, whose comment at src/engine.rs line 146
records the absent check — no comparison of `rows * cols` against the
number of supplied elements is performed. -/

/-- A parsed JSON value (integral numbers only). -/
inductive Json where
  | null
  | bool (b : Bool)
  | num (n : Int)
  | str (s : String)
  | arr (xs : List Json)
  | obj (fields : List (String × Json))

/-- First value bound to `key`, as serde finds fields in a map. -/
def Json.lookupField : List (String × Json) → String → Option Json
  | [], _ => none
  | (k, v) :: rest, key => if k = key then some v else Json.lookupField rest key

/-- Derived `u8` deserialization: an integer in `[0, 256)`. -/
def deU8 : Json → Option Nat
  | .num n => if 0 ≤ n ∧ n < 256 then some n.toNat else none
  | _ => none

/-- Derived `usize` deserialization: an integer in `[0, 2^64)`. -/
def deUsize : Json → Option Nat
  | .num n => if 0 ≤ n ∧ n < 2 ^ 64 then some n.toNat else none
  | _ => none

/-- Derived `Vec<u8>` deserialization. -/
def deVecU8 : Json → Option (List Nat)
  | .arr xs => xs.mapM deU8
  | _ => none

/-- Derived `Array2D<u8>` deserialization: requires `elements`, `rows`,
`cols`; performs no consistency check between them. -/
def deArray2D : Json → Option Array2D
  | .obj fields => do
    let es ← Json.lookupField fields "elements" >>= deVecU8
    let r ← Json.lookupField fields "rows" >>= deUsize
    let c ← Json.lookupField fields "cols" >>= deUsize
    pure { elements := es, rows := r, cols := c }
  | _ => none

/-- Derived `Bitmap` deserialization: requires `data`, `foreground`,
`background`.  `none` is the deserialization failure (the source then
aborts via `expect`). -/
def deBitmap : Json → Option Bitmap
  | .obj fields => do
    let d ← Json.lookupField fields "data" >>= deArray2D
    let fg ← Json.lookupField fields "foreground" >>= deU8
    let bg ← Json.lookupField fields "background" >>= deU8
    pure { data := d, foreground := fg, background := bg }
  | _ => none

/-! Concrete fixtures.  `sp1` and `sp2` are the sprites of the repository
test `test_sprite_intersect_ranges` and of the worked examples in the
specification (a 3x2 bitmap, `fg = 4`, `bg = 1`, pixel rows
`[4,1,4]`, `[1,1,4]`, at positions `(2,5)` and `(5,5)`). -/

/-- The 3x2 example sprite at position `(2,5)`. -/
def sp1 : Sprite :=
  { pixels := { data := { elements := [4, 1, 4, 1, 1, 4], rows := 2, cols := 3 }
                foreground := 4, background := 1 }
    pos := ⟨2, 5⟩
    bounds := { top_left := ⟨2, 5⟩, bottom_right := ⟨4, 6⟩ } }

/-- The 3x2 example sprite at position `(5,5)`. -/
def sp2 : Sprite :=
  { pixels := { data := { elements := [4, 1, 4, 1, 1, 4], rows := 2, cols := 3 }
                foreground := 4, background := 1 }
    pos := ⟨5, 5⟩
    bounds := { top_left := ⟨5, 5⟩, bottom_right := ⟨7, 6⟩ } }

/-- A 2x1 sprite at the origin whose only foreground cell is the second
one (local `(1,0)`); exactly the sprite `Sprite::new(2, 1, 4, 1, None)`
would build after its cell `(1,0)` is painted foreground. -/
def spFgRight : Sprite :=
  { pixels := { data := { elements := [1, 4], rows := 1, cols := 2 }
                foreground := 4, background := 1 }
    pos := ⟨0, 0⟩
    bounds := { top_left := ⟨0, 0⟩, bottom_right := ⟨1, 0⟩ } }

/-- C1.  The claim states that for every board position inside the
sprite's extent, `get_pixel_at` returns `Some` of the bitmap cell at the
translated local coordinate.  The code instead subtracts the query point
from the sprite position, so the only in-extent queries that return a
value are those equal to `pos` itself: at `(3,5)`, which lies inside
`sp1`'s extent and whose translated local coordinate `(1,0)` holds the
cell value `1`, the program aborts on `usize` underflow (`none`; a release
build wraps and returns `None`) instead of returning `Some 1`.  The
left-of/above contract does hold (`(1,5)` yields `None`), and the corner
`(2,5)` yields its cell. -/
theorem get_pixel_at_reversed_translation_bug :
    sp1.getPixelAt ⟨2, 5⟩ = some (some 4) ∧
    sp1.getPixelAt ⟨1, 5⟩ = some none ∧
    sp1.pixels.data.indexE ⟨1, 0⟩ = some 1 ∧
    sp1.getPixelAt ⟨3, 5⟩ = none := by
  refine ⟨rfl, rfl, rfl, rfl⟩

/-- C2.  The specification's concrete example does hold: `sp1` intersects
an identical copy of itself at the same position (the very first scanned
coordinate is the shared `pos`, where the cell `(0,0) = 4` is foreground
for both).  But the general sentence — every sprite with at least one
foreground cell intersects an identical copy of itself — fails on the
code: for `spFgRight`, whose single foreground cell sits at local
`(1,0)`, the scan leaves the shared corner and `get_pixel_at` aborts on
`usize` underflow (`none`; a release build wraps and returns `false`),
instead of returning `true` as claimed. -/
theorem intersect_self_copy_bug :
    sp1.intersect sp1 = some true ∧
    (∃ c, c ∈ spFgRight.pixels.data.elements ∧ c = spFgRight.pixels.foreground) ∧
    spFgRight.intersect spFgRight = none := by
  refine ⟨rfl, ⟨4, by decide⟩, rfl⟩

/-- C6.  Whenever the two bounding rectangles are disjoint in the sense of
the source's broad-phase test, `intersect` returns `false` (and no pixel
is ever fetched: the narrow-phase scan is not entered). -/
theorem intersect_disjoint_rects_false (a b : Sprite)
    (h : b.bounds.top_left.x > a.bounds.bottom_right.x ∨
         b.bounds.top_left.y > a.bounds.bottom_right.y ∨
         b.bounds.bottom_right.x < a.bounds.top_left.x ∨
         b.bounds.bottom_right.y < a.bounds.top_left.y) :
    a.intersect b = some false := by
  have hd : a.rectDisjoint b = true := by
    simp only [Sprite.rectDisjoint, Bool.or_eq_true, decide_eq_true_eq]
    tauto
  simp [Sprite.intersect, hd]

/-- Witness for C6, at the specification's concrete pair: `sp1` at `(2,5)`
(right edge `x = 4`) and `sp2` at `(5,5)` have disjoint rectangles, and
`intersect` returns `false`. -/
theorem intersect_disjoint_rects_false_witness :
    sp1.intersect sp2 = some false :=
  intersect_disjoint_rects_false sp1 sp2 (by decide)

/-- C10.  `Sprite::new` computes the bounding rectangle's bottom-right
corner as `(pos.x + cols - 1, pos.y + rows - 1)` in unsigned arithmetic:
for `cols ≥ 1` and `rows ≥ 1` the construction is abort-free and yields
exactly that corner, while for `cols = 0` or `rows = 0` the subtraction
underflows on the default position and the abort branch is reached. -/
theorem sprite_new_bounds_underflow (cols rows fg bg : Nat) (pos : Option Position) :
    (1 ≤ cols → 1 ≤ rows →
      Sprite.new cols rows fg bg pos =
        some { pixels := Bitmap.new cols rows fg bg
               pos := pos.getD ⟨0, 0⟩
               bounds := { top_left := ⟨(pos.getD ⟨0, 0⟩).x, (pos.getD ⟨0, 0⟩).y⟩
                           bottom_right := ⟨(pos.getD ⟨0, 0⟩).x + cols - 1,
                                            (pos.getD ⟨0, 0⟩).y + rows - 1⟩ } }) ∧
    (cols = 0 ∨ rows = 0 → Sprite.new cols rows fg bg none = none) := by
  constructor
  · intro hc hr
    have h1 : csub ((pos.getD ⟨0, 0⟩).x + cols) 1 = some ((pos.getD ⟨0, 0⟩).x + cols - 1) := by
      simp [csub]; omega
    have h2 : csub ((pos.getD ⟨0, 0⟩).y + rows) 1 = some ((pos.getD ⟨0, 0⟩).y + rows - 1) := by
      simp [csub]; omega
    simp [Sprite.new, h1, h2]
  · rintro (h | h) <;> subst h <;> simp [Sprite.new, csub]

/-- Witness for C10: applied at the example dimensions `3x2` at `(2,5)`
(abort-free, corner `(4,6)`) and at `cols = 0` (abort). -/
theorem sprite_new_bounds_underflow_witness :
    Sprite.new 3 2 4 1 (some ⟨2, 5⟩) =
      some { pixels := Bitmap.new 3 2 4 1
             pos := ⟨2, 5⟩
             bounds := { top_left := ⟨2, 5⟩, bottom_right := ⟨4, 6⟩ } } ∧
    Sprite.new 0 2 4 1 none = none :=
  ⟨(sprite_new_bounds_underflow 3 2 4 1 (some ⟨2, 5⟩)).1 (by decide) (by decide),
   (sprite_new_bounds_underflow 0 2 4 1 none).2 (Or.inl rfl)⟩

/-- The serialized bitmap record of the repository's own test
`test_bitmap_build_str`, with the declared dimensions kept (`rows = 2`,
`cols = 3`) but only two cell values supplied instead of six. -/
def mismatchedRecord : Json :=
  .obj [("foreground", .num 4),
        ("background", .num 1),
        ("data", .obj [("rows", .num 2), ("cols", .num 3),
                       ("elements", .arr [.num 4, .num 1])])]

/-- C8.  The claim states that deserialization fails whenever the declared
`rows * cols` does not match the number of supplied cells.  The derived
deserializer performs no such check (the source's own comment at
src/engine.rs line 146 records the absent check), so the mismatched
record — dimensions 2x3 but only 2 cells — parses successfully.  The
missing-field half of the claim does hold: dropping `background` (the
repository's own failing test) makes parsing fail. -/
theorem bitmap_deserialize_no_dimension_check :
    deBitmap mismatchedRecord =
      some { data := { elements := [4, 1], rows := 2, cols := 3 }
             foreground := 4, background := 1 } ∧
    deBitmap (.obj [("foreground", .num 4),
                    ("data", .obj [("rows", .num 2), ("cols", .num 3),
                                   ("elements", .arr [.num 4, .num 1])])]) = none := by
  refine ⟨rfl, rfl⟩

/-- The broad-phase test is symmetric in the two sprites. -/
lemma rectDisjoint_comm (a b : Sprite) : a.rectDisjoint b = b.rectDisjoint a := by
  rw [Bool.eq_iff_iff]
  simp only [Sprite.rectDisjoint, Bool.or_eq_true, decide_eq_true_eq, gt_iff_lt]
  tauto

/-- The overlap sub-rectangle is symmetric in the two sprites. -/
lemma commonPoints_comm (a b : Sprite) : a.commonPoints b = b.commonPoints a := by
  simp only [Sprite.commonPoints]
  rw [Nat.max_comm a.bounds.top_left.y b.bounds.top_left.y,
      Nat.min_comm a.bounds.bottom_right.y b.bounds.bottom_right.y,
      Nat.max_comm a.bounds.top_left.x b.bounds.top_left.x,
      Nat.min_comm a.bounds.bottom_right.x b.bounds.bottom_right.x]

/-- The narrow-phase scan is symmetric in the two sprites over any list of
coordinates: at every coordinate both pixels are fetched (either fetch
aborting aborts the whole scan in either order) and the two-foreground
test is symmetric. -/
lemma scanPoints_comm (a b : Sprite) (ps : List Position) :
    a.scanPoints b ps = b.scanPoints a ps := by
  induction ps with
  | nil => rfl
  | cons q rest ih =>
    cases ha : a.getPixelAt q <;> cases hb : b.getPixelAt q <;>
      simp only [Sprite.scanPoints, ha, hb]
    case some.some v w =>
      cases v <;> cases w <;> simp [Bool.and_comm, ih]

/-- C7.  Sprite intersection is symmetric: `a.intersect(b) ==
b.intersect(a)` — including the abort cases, which arise at the same
scanned coordinate in either order. -/
theorem intersect_comm (a b : Sprite) : a.intersect b = b.intersect a := by
  simp only [Sprite.intersect, rectDisjoint_comm a b, commonPoints_comm a b,
    scanPoints_comm a b]

/-- The admission scan returns `false` exactly when every admitted sprite
tests `false` against the candidate. -/
lemma anyIntersect_eq_false_iff (l : List Sprite) (sp : Sprite) :
    anyIntersect l sp = some false ↔ ∀ s ∈ l, s.intersect sp = some false := by
  induction l with
  | nil => simp [anyIntersect]
  | cons s rest ih =>
    cases h : s.intersect sp with
    | none => simp [anyIntersect, h]
    | some tf =>
      cases tf <;> simp [anyIntersect, h, ih]

/-- C5.  `add_sprite` appends the candidate exactly when `intersect` is
`false` against every already-admitted sprite; when the admission scan
finds an intersection it returns normally (a value, not an abort) with the
board — sprite list and screen — unchanged. -/
theorem add_sprite_admission (b : Board) (sp : Sprite) :
    (b.addSprite sp = some { b with sprites := b.sprites ++ [sp] } ↔
      ∀ s ∈ b.sprites, s.intersect sp = some false) ∧
    (anyIntersect b.sprites sp = some true → b.addSprite sp = some b) := by
  constructor
  · constructor
    · intro h
      rw [← anyIntersect_eq_false_iff]
      unfold Board.addSprite at h
      cases hai : anyIntersect b.sprites sp with
      | none => rw [hai] at h; exact absurd h (by simp)
      | some tf =>
        cases tf
        · rfl
        · rw [hai] at h
          have hs := congrArg Board.sprites (Option.some.inj h)
          have hlen := congrArg List.length hs
          simp at hlen
    · intro h
      have hai : anyIntersect b.sprites sp = some false :=
        (anyIntersect_eq_false_iff _ _).mpr h
      simp [Board.addSprite, hai]
  · intro h
    simp [Board.addSprite, h]

/-- Witness for C5: on an empty board the example sprite is appended; on a
board already holding it, the identical candidate is silently rejected and
the board is returned unchanged. -/
theorem add_sprite_admission_witness :
    Board.addSprite (Board.new 6 3 1 0) sp1 =
      some { Board.new 6 3 1 0 with sprites := (Board.new 6 3 1 0).sprites ++ [sp1] } ∧
    Board.addSprite { sprites := [sp1], screen := Bitmap.new 6 3 1 0 } sp1 =
      some { sprites := [sp1], screen := Bitmap.new 6 3 1 0 } :=
  ⟨(add_sprite_admission (Board.new 6 3 1 0) sp1).1.mpr (by simp [Board.new]),
   (add_sprite_admission { sprites := [sp1], screen := Bitmap.new 6 3 1 0 } sp1).2 rfl⟩

/-- Membership in the loop enumeration is exactly in-rangeness. -/
lemma mem_allPositions {rows cols : Nat} {p : Position} :
    p ∈ allPositions rows cols ↔ p.x < cols ∧ p.y < rows := by
  simp only [allPositions, List.mem_flatMap, List.mem_map, List.mem_range]
  constructor
  · rintro ⟨y, hy, x, hx, rfl⟩
    exact ⟨hx, hy⟩
  · rintro ⟨hx, hy⟩
    exact ⟨p.y, hy, p.x, hx, rfl⟩

/-- Characterisation of a successful checked write. -/
lemma setE_eq {a : Array2D} {p : Position} {v : Nat} {d : Array2D}
    (h : a.setE p v = some d) :
    d = { a with elements := a.elements.set (p.y * a.cols + p.x) v } ∧
    p.x < a.cols ∧ p.y < a.rows ∧ p.y * a.cols + p.x < a.elements.length := by
  unfold Array2D.setE Array2D.inRange at h
  by_cases h1 : p.x < a.cols <;> by_cases h2 : p.y < a.rows <;>
    simp [h1, h2] at h
  by_cases h3 : p.y * a.cols + p.x < a.elements.length <;> simp [h3] at h
  exact ⟨h.symm, h1, h2, h3⟩

/-- A checked write on an in-range, backed cell succeeds. -/
lemma setE_succeeds {a : Array2D} {p : Position} (v : Nat)
    (h1 : p.x < a.cols) (h2 : p.y < a.rows)
    (h3 : p.y * a.cols + p.x < a.elements.length) :
    a.setE p v = some { a with elements := a.elements.set (p.y * a.cols + p.x) v } := by
  simp [Array2D.setE, Array2D.inRange, h1, h2, h3]

/-- Characterisation of a successful reset write. -/
lemma resetStep_eq {b : Bitmap} {p : Position} {d : Bitmap}
    (h : resetStep b p = some d) :
    d.foreground = b.foreground ∧ d.background = b.background ∧
    d.data.rows = b.data.rows ∧ d.data.cols = b.data.cols ∧
    d.data.elements = b.data.elements.set (p.y * b.data.cols + p.x) b.background ∧
    p.x < b.data.cols ∧ p.y < b.data.rows ∧
    p.y * b.data.cols + p.x < b.data.elements.length := by
  unfold resetStep at h
  cases hset : b.data.setE p b.background with
  | none => rw [hset] at h; cases h
  | some d0 =>
    rw [hset] at h
    obtain ⟨hd0, h1, h2, h3⟩ := setE_eq hset
    cases h
    subst hd0
    exact ⟨rfl, rfl, rfl, rfl, rfl, h1, h2, h3⟩

/-- What a successful run of the reset loop over any list of positions
guarantees: fields and dimensions preserved, every visited cell holds the
background value, every other cell is untouched. -/
lemma reset_fold_spec (ps : List Position) (bm bm' : Bitmap)
    (h : ps.foldlM resetStep bm = some bm') :
    bm'.foreground = bm.foreground ∧ bm'.background = bm.background ∧
    bm'.data.rows = bm.data.rows ∧ bm'.data.cols = bm.data.cols ∧
    bm'.data.elements.length = bm.data.elements.length ∧
    (∀ p ∈ ps, bm'.data.elements.get? (p.y * bm.data.cols + p.x) = some bm.background) ∧
    (∀ i, (∀ p ∈ ps, p.y * bm.data.cols + p.x ≠ i) →
      bm'.data.elements.get? i = bm.data.elements.get? i) := by
  induction ps generalizing bm with
  | nil =>
    cases h
    exact ⟨rfl, rfl, rfl, rfl, rfl, by simp, fun i _ => rfl⟩
  | cons p rest ih =>
    rw [List.foldlM_cons] at h
    cases hstep : resetStep bm p with
    | none => rw [hstep] at h; cases h
    | some b1 =>
      rw [hstep] at h
      obtain ⟨hf, hb, hr, hc, hel, hx, hy, hlen⟩ := resetStep_eq hstep
      obtain ⟨ihf, ihb, ihr, ihc, ihlen, ihset, ihunch⟩ := ih b1 h
      have hlen1 : b1.data.elements.length = bm.data.elements.length := by
        rw [hel, List.length_set]
      refine ⟨ihf.trans hf, ihb.trans hb, ihr.trans hr, ihc.trans hc,
        ihlen.trans hlen1, ?_, ?_⟩
      · intro q hq
        rcases List.mem_cons.mp hq with rfl | hqrest
        · by_cases hdup : ∃ p' ∈ rest, p'.y * bm.data.cols + p'.x = q.y * bm.data.cols + q.x
          · obtain ⟨p', hp', heq⟩ := hdup
            have := ihset p' hp'
            rw [hc, hb] at this
            rw [← heq]
            exact this
          · have hnone : ∀ p' ∈ rest, p'.y * b1.data.cols + p'.x ≠ q.y * bm.data.cols + q.x := by
              intro p' hp' hcontra
              rw [hc] at hcontra
              exact hdup ⟨p', hp', hcontra⟩
            rw [ihunch _ hnone, hel]
            exact List.get?_set_eq_of_lt _ hlen
        · have := ihset q hqrest
          rw [hc, hb] at this
          exact this
      · intro i hi
        have hrest : ∀ p' ∈ rest, p'.y * b1.data.cols + p'.x ≠ i := by
          intro p' hp'
          rw [hc]
          exact hi p' (List.mem_cons_of_mem _ hp')
        rw [ihunch i hrest, hel, List.get?_set_ne _ _ (hi p (List.mem_cons_self _ _))]

/-- The reset loop succeeds whenever every visited position is in range
and backed by the element vector. -/
lemma reset_fold_succeeds (ps : List Position) (bm : Bitmap)
    (hps : ∀ p ∈ ps, p.x < bm.data.cols ∧ p.y < bm.data.rows ∧
      p.y * bm.data.cols + p.x < bm.data.elements.length) :
    ∃ bm', ps.foldlM resetStep bm = some bm' := by
  induction ps generalizing bm with
  | nil => exact ⟨bm, rfl⟩
  | cons p rest ih =>
    obtain ⟨h1, h2, h3⟩ := hps p (List.mem_cons_self _ _)
    have hstep : resetStep bm p =
        some { bm with data := { bm.data with
          elements := bm.data.elements.set (p.y * bm.data.cols + p.x) bm.background } } := by
      unfold resetStep
      rw [setE_succeeds bm.background h1 h2 h3]
      rfl
    have hrest := fun p' hp' => hps p' (List.mem_cons_of_mem _ hp')
    obtain ⟨bm', hfold⟩ := ih
      { bm with data := { bm.data with
          elements := bm.data.elements.set (p.y * bm.data.cols + p.x) bm.background } }
      (by simpa using hrest)
    exact ⟨bm', by rw [List.foldlM_cons, hstep]; exact hfold⟩

/-- The row-major linear index of an in-range position. -/
lemma linearIdx_lt {x y rows cols : Nat} (hx : x < cols) (hy : y < rows) :
    y * cols + x < rows * cols := by
  have h1 : y * cols + x < (y + 1) * cols := by
    rw [Nat.succ_mul]; omega
  have h2 : (y + 1) * cols ≤ rows * cols := Nat.mul_le_mul_right cols hy
  omega

/-- C9.  When the grid invariant holds (`elements.len == rows*cols`, which
every constructed bitmap satisfies), `reset` completes, every cell then
reads as the background value, and the dimensions, foreground and
background values are unchanged. -/
theorem bitmap_reset_all_background (bm : Bitmap)
    (hlen : bm.data.elements.length = bm.data.rows * bm.data.cols) :
    bm.reset.isSome = true ∧
    ∀ bm', bm.reset = some bm' →
      bm'.data.rows = bm.data.rows ∧ bm'.data.cols = bm.data.cols ∧
      bm'.foreground = bm.foreground ∧ bm'.background = bm.background ∧
      ∀ p : Position, p.x < bm.data.cols → p.y < bm.data.rows →
        bm'.data.indexE p = some bm.background := by
  have hps : ∀ p ∈ allPositions bm.data.rows bm.data.cols,
      p.x < bm.data.cols ∧ p.y < bm.data.rows ∧
      p.y * bm.data.cols + p.x < bm.data.elements.length := by
    intro p hp
    obtain ⟨hx, hy⟩ := mem_allPositions.mp hp
    exact ⟨hx, hy, by rw [hlen]; exact linearIdx_lt hx hy⟩
  constructor
  · obtain ⟨bm', hfold⟩ := reset_fold_succeeds _ bm hps
    unfold Bitmap.reset
    rw [hfold]
    rfl
  · intro bm' hres
    unfold Bitmap.reset at hres
    obtain ⟨hf, hb, hr, hc, _, hset, _⟩ := reset_fold_spec _ bm bm' hres
    refine ⟨hr, hc, hf, hb, ?_⟩
    intro p hx hy
    have hm := hset p (mem_allPositions.mpr ⟨hx, hy⟩)
    rw [List.get?_eq_getElem?] at hm
    simp [Array2D.indexE, Array2D.inRange, hr, hc, hx, hy, hm]

/-- The example bitmap after reset: every cell holds the background. -/
def resetFix : Bitmap :=
  { data := { elements := [1, 1, 1, 1, 1, 1], rows := 2, cols := 3 }
    foreground := 4, background := 1 }

/-- Witness for C9, at the example bitmap of the repository's own
`test_bitmap_reset`. -/
theorem bitmap_reset_all_background_witness :
    sp1.pixels.reset = some resetFix ∧
    resetFix.data.rows = 2 ∧ resetFix.data.cols = 3 ∧
    resetFix.foreground = 4 ∧ resetFix.background = 1 ∧
    resetFix.data.indexE ⟨2, 1⟩ = some 1 := by
  have h := (bitmap_reset_all_background sp1.pixels rfl).2 resetFix (by rfl)
  exact ⟨by rfl, h.1, h.2.1, h.2.2.1, h.2.2.2.1, h.2.2.2.2 ⟨2, 1⟩ (by decide) (by decide)⟩

/-- A sprite covers the board coordinate `q` when `q` lies inside its
extent (its position plus its bitmap's dimensions). -/
def covers (s : Sprite) (q : Position) : Prop :=
  s.pos.x ≤ q.x ∧ q.x < s.pos.x + s.pixels.data.cols ∧
  s.pos.y ≤ q.y ∧ q.y < s.pos.y + s.pixels.data.rows

instance (s : Sprite) (q : Position) : Decidable (covers s q) := by
  unfold covers; infer_instance

/-- Characterisation of a successful checked read. -/
lemma indexE_some {a : Array2D} {p : Position} {v : Nat}
    (h : a.indexE p = some v) :
    p.x < a.cols ∧ p.y < a.rows ∧ p.y * a.cols + p.x < a.elements.length ∧
    a.elements.get? (p.y * a.cols + p.x) = some v := by
  unfold Array2D.indexE Array2D.inRange at h
  by_cases h1 : p.x < a.cols <;> by_cases h2 : p.y < a.rows <;>
    simp [h1, h2] at h
  have hlt : p.y * a.cols + p.x < a.elements.length :=
    (List.getElem?_eq_some.mp h).1
  refine ⟨h1, h2, hlt, ?_⟩
  rw [List.get?_eq_getElem?]
  exact h

/-- Row-major linear indexing is injective on in-range columns. -/
lemma linearIdx_inj {c x0 y0 x1 y1 : Nat} (h0 : x0 < c) (h1 : x1 < c)
    (h : y0 * c + x0 = y1 * c + x1) : x0 = x1 ∧ y0 = y1 := by
  have hx : x0 = x1 := by
    have hm : (y0 * c + x0) % c = (y1 * c + x1) % c := by rw [h]
    rw [Nat.mul_comm y0 c, Nat.mul_comm y1 c] at hm
    rwa [Nat.mul_add_mod, Nat.mul_add_mod, Nat.mod_eq_of_lt h0,
      Nat.mod_eq_of_lt h1] at hm
  refine ⟨hx, ?_⟩
  subst hx
  have hmul : y0 * c = y1 * c := by omega
  exact Nat.eq_of_mul_eq_mul_right (lt_of_le_of_lt (Nat.zero_le _) h0) hmul

/-- Characterisation of a successful per-cell step of `Board::update`:
the target screen cell was in range and held the background, and the
sprite's cell value was copied there. -/
lemma updateCell_ok {scr : Bitmap} {s : Sprite} {p : Position} {scr' : Bitmap}
    (h : updateCell scr s p = .ok scr') :
    scr'.foreground = scr.foreground ∧ scr'.background = scr.background ∧
    scr'.data.rows = scr.data.rows ∧ scr'.data.cols = scr.data.cols ∧
    scr'.data.elements.length = scr.data.elements.length ∧
    (p.x + s.pos.x < scr.data.cols ∧ p.y + s.pos.y < scr.data.rows ∧
      (p.y + s.pos.y) * scr.data.cols + (p.x + s.pos.x) < scr.data.elements.length) ∧
    ∃ w, s.pixels.data.indexE p = some w ∧
      scr'.data.elements = scr.data.elements.set
        ((p.y + s.pos.y) * scr.data.cols + (p.x + s.pos.x)) w := by
  unfold updateCell at h
  split at h
  next hread => cases h
  next v hread =>
    split at h
    next hv => cases h
    next hv =>
      split at h
      next hpix => cases h
      next w hpix =>
        split at h
        next hset => cases h
        next d hset =>
          obtain ⟨hd, _, _, _⟩ := setE_eq hset
          obtain ⟨hbx, hby, hblen, _⟩ := indexE_some hread
          cases h
          subst hd
          exact ⟨rfl, rfl, rfl, rfl, by simp, ⟨hbx, hby, hblen⟩, w, hpix, rfl⟩

/-- What a successful run of the per-sprite write loop over any list of
local cells guarantees: screen fields and dimensions preserved, every
visited cell lands in range and receives the sprite's cell value, every
other screen cell is untouched. -/
lemma spriteWrite_fold_spec (s : Sprite) (ps : List Position) (scr scr' : Bitmap)
    (h : ps.foldlM (fun sc p => updateCell sc s p) scr = .ok scr') :
    scr'.foreground = scr.foreground ∧ scr'.background = scr.background ∧
    scr'.data.rows = scr.data.rows ∧ scr'.data.cols = scr.data.cols ∧
    scr'.data.elements.length = scr.data.elements.length ∧
    (∀ p ∈ ps, p.x + s.pos.x < scr.data.cols ∧ p.y + s.pos.y < scr.data.rows) ∧
    (∀ i, (∀ p ∈ ps, (p.y + s.pos.y) * scr.data.cols + (p.x + s.pos.x) ≠ i) →
      scr'.data.elements.get? i = scr.data.elements.get? i) ∧
    (∀ p ∈ ps, ∃ w, s.pixels.data.indexE p = some w ∧
      scr'.data.elements.get? ((p.y + s.pos.y) * scr.data.cols + (p.x + s.pos.x)) = some w) := by
  induction ps generalizing scr with
  | nil =>
    cases h
    exact ⟨rfl, rfl, rfl, rfl, rfl, by simp, fun i _ => rfl, by simp⟩
  | cons p rest ih =>
    rw [List.foldlM_cons] at h
    cases hstep : updateCell scr s p with
    | error e => rw [hstep] at h; cases h
    | ok scr1 =>
      rw [hstep] at h
      obtain ⟨hf, hb, hr, hc, hl, ⟨hbx, hby, hblen⟩, w, hpix, hel⟩ := updateCell_ok hstep
      obtain ⟨ihf, ihb, ihr, ihc, ihl, ihin, ihunch, ihset⟩ := ih scr1 h
      have hl1 : scr1.data.elements.length = scr.data.elements.length := by
        rw [hel, List.length_set]
      refine ⟨ihf.trans hf, ihb.trans hb, ihr.trans hr, ihc.trans hc,
        ihl.trans hl1, ?_, ?_, ?_⟩
      · intro q hq
        rcases List.mem_cons.mp hq with rfl | hqrest
        · exact ⟨hbx, hby⟩
        · have := ihin q hqrest
          rw [hc, hr] at this
          exact this
      · intro i hi
        have hrest : ∀ q ∈ rest, (q.y + s.pos.y) * scr1.data.cols + (q.x + s.pos.x) ≠ i := by
          intro q hq
          rw [hc]
          exact hi q (List.mem_cons_of_mem _ hq)
        rw [ihunch i hrest, hel,
          List.get?_set_ne _ _ (hi p (List.mem_cons_self _ _))]
      · intro q hq
        rcases List.mem_cons.mp hq with rfl | hqrest
        · by_cases hdup : ∃ q' ∈ rest,
              (q'.y + s.pos.y) * scr.data.cols + (q'.x + s.pos.x) =
              (q.y + s.pos.y) * scr.data.cols + (q.x + s.pos.x)
          · obtain ⟨q', hq', heq⟩ := hdup
            obtain ⟨hq'x, hq'y⟩ := ihin q' hq'
            rw [hc] at hq'x
            rw [hr] at hq'y
            obtain ⟨hex, hey⟩ := linearIdx_inj hq'x hbx heq
            obtain ⟨w', hpix', hval⟩ := ihset q' hq'
            rw [hc] at hval
            have hq'eq : q' = q := by
              cases q'; cases q
              simp only [Position.mk.injEq]
              simp only at hex hey
              omega
            rw [hq'eq] at hpix' hval
            exact ⟨w', hpix', hval⟩
          · have hnone : ∀ q' ∈ rest,
                (q'.y + s.pos.y) * scr1.data.cols + (q'.x + s.pos.x) ≠
                (q.y + s.pos.y) * scr.data.cols + (q.x + s.pos.x) := by
              intro q' hq' hcontra
              rw [hc] at hcontra
              exact hdup ⟨q', hq', hcontra⟩
            refine ⟨w, hpix, ?_⟩
            rw [ihunch _ hnone, hel]
            exact List.get?_set_eq_of_lt _ hblen
        · obtain ⟨w', hpix', hval⟩ := ihset q hqrest
          rw [hc] at hval
          exact ⟨w', hpix', hval⟩

/-- What a successful run of the per-sprite loop of `Board::update` over
any list of sprites guarantees: screen fields preserved, cells covered by
no sprite untouched, and cells covered by exactly one sprite holding that
sprite's translated bitmap cell. -/
lemma update_fold_spec (l : List Sprite) (scr scr' : Bitmap)
    (h : l.foldlM (fun sc s => spriteWrite sc s) scr = .ok scr') :
    scr'.foreground = scr.foreground ∧ scr'.background = scr.background ∧
    scr'.data.rows = scr.data.rows ∧ scr'.data.cols = scr.data.cols ∧
    scr'.data.elements.length = scr.data.elements.length ∧
    (∀ q : Position, q.x < scr.data.cols → q.y < scr.data.rows →
      (∀ s ∈ l, ¬ covers s q) →
      scr'.data.elements.get? (q.y * scr.data.cols + q.x) =
        scr.data.elements.get? (q.y * scr.data.cols + q.x)) ∧
    (∀ q : Position, ∀ s, s ∈ l → covers s q →
      l.countP (fun t => decide (covers t q)) = 1 →
      q.x < scr.data.cols ∧ q.y < scr.data.rows ∧
      ∃ w, s.pixels.data.indexE ⟨q.x - s.pos.x, q.y - s.pos.y⟩ = some w ∧
        scr'.data.elements.get? (q.y * scr.data.cols + q.x) = some w) := by
  induction l generalizing scr with
  | nil =>
    cases h
    exact ⟨rfl, rfl, rfl, rfl, rfl, fun q _ _ _ => rfl,
      fun q s hs => absurd hs (List.not_mem_nil s)⟩
  | cons s0 rest ih =>
    rw [List.foldlM_cons] at h
    cases hstep : spriteWrite scr s0 with
    | error e => rw [hstep] at h; cases h
    | ok scr1 =>
      rw [hstep] at h
      unfold spriteWrite at hstep
      obtain ⟨hf, hb, hr, hc, hl, hin, hunch, hset⟩ :=
        spriteWrite_fold_spec s0 _ scr scr1 hstep
      obtain ⟨ihf, ihb, ihr, ihc, ihl, ihunch, ihcov⟩ := ih scr1 h
      refine ⟨ihf.trans hf, ihb.trans hb, ihr.trans hr, ihc.trans hc,
        ihl.trans hl, ?_, ?_⟩
      · intro q hqx hqy hnone
        have hns0 : ¬ covers s0 q := hnone s0 (List.mem_cons_self _ _)
        have hnw : ∀ p ∈ allPositions s0.pixels.data.rows s0.pixels.data.cols,
            (p.y + s0.pos.y) * scr.data.cols + (p.x + s0.pos.x) ≠
            q.y * scr.data.cols + q.x := by
          intro p hp heq
          obtain ⟨hpx, hpy⟩ := mem_allPositions.mp hp
          obtain ⟨hbx, hby⟩ := hin p hp
          obtain ⟨hex, hey⟩ := linearIdx_inj hbx hqx heq
          exact hns0 (by unfold covers; omega)
        have h1 := hunch _ hnw
        have h2 := ihunch q (by rw [hc]; exact hqx) (by rw [hr]; exact hqy)
          (fun t ht => hnone t (List.mem_cons_of_mem _ ht))
        rw [hc] at h2
        exact h2.trans h1
      · intro q s hs hcov hcount
        rw [List.countP_cons] at hcount
        by_cases hc0 : covers s0 q
        · have hd0 : decide (covers s0 q) = true := decide_eq_true hc0
          have hrest0 : rest.countP (fun t => decide (covers t q)) = 0 := by
            rw [if_pos hd0] at hcount
            omega
          have hnorest : ∀ t ∈ rest, ¬ covers t q := by
            intro t ht hcov'
            have hzero := List.countP_eq_zero.mp hrest0 t ht
            exact hzero (decide_eq_true hcov')
          rcases List.mem_cons.mp hs with rfl | hsrest
          · obtain ⟨hcx1, hcx2, hcy1, hcy2⟩ := hcov
            have hp : (⟨q.x - s.pos.x, q.y - s.pos.y⟩ : Position) ∈
                allPositions s.pixels.data.rows s.pixels.data.cols :=
              mem_allPositions.mpr
                ⟨show q.x - s.pos.x < s.pixels.data.cols by omega,
                 show q.y - s.pos.y < s.pixels.data.rows by omega⟩
            obtain ⟨hbx, hby⟩ := hin _ hp
            have hbpx : q.x - s.pos.x + s.pos.x = q.x := by omega
            have hbpy : q.y - s.pos.y + s.pos.y = q.y := by omega
            simp only at hbx hby
            rw [hbpx] at hbx
            rw [hbpy] at hby
            obtain ⟨w, hpix, hval⟩ := hset _ hp
            simp only at hval
            rw [hbpx, hbpy] at hval
            have h2 := ihunch q (by rw [hc]; exact hbx) (by rw [hr]; exact hby) hnorest
            rw [hc] at h2
            exact ⟨hbx, hby, w, hpix, h2.trans hval⟩
          · exact absurd hcov (hnorest s hsrest)
        · have hd0 : decide (covers s0 q) = false := decide_eq_false hc0
          have hrest1 : rest.countP (fun t => decide (covers t q)) = 1 := by
            have hd0f : ¬ (decide (covers s0 q) = true) := by simp [hd0]
            rw [if_neg hd0f] at hcount
            omega
          rcases List.mem_cons.mp hs with rfl | hsrest
          · exact absurd hcov hc0
          · have hres := ihcov q s hsrest hcov hrest1
            rw [hc, hr] at hres
            exact hres

/-- C3.  When `Board::update` completes, every board coordinate covered
by exactly one admitted sprite holds that sprite's bitmap cell at the
translated local coordinate, every coordinate covered by no sprite holds
the board's background, and the screen keeps its dimensions and its
background value. -/
theorem board_update_screen_composition (b b' : Board) (h : b.update = .ok b') :
    b'.screen.background = b.screen.background ∧
    b'.screen.data.rows = b.screen.data.rows ∧
    b'.screen.data.cols = b.screen.data.cols ∧
    (∀ q : Position, q.x < b.screen.data.cols → q.y < b.screen.data.rows →
      (∀ s ∈ b.sprites, ¬ covers s q) →
      b'.screen.data.indexE q = some b.screen.background) ∧
    (∀ q : Position, ∀ s, s ∈ b.sprites → covers s q →
      b.sprites.countP (fun t => decide (covers t q)) = 1 →
      ∃ w, s.pixels.data.indexE ⟨q.x - s.pos.x, q.y - s.pos.y⟩ = some w ∧
        b'.screen.data.indexE q = some w) := by
  unfold Board.update at h
  split at h
  next hres => cases h
  next scr0 hres =>
    split at h
    next e hfold => cases h
    next scr hfold =>
      cases h
      unfold Bitmap.reset at hres
      obtain ⟨r_f, r_b, r_r, r_c, r_l, r_set, _⟩ := reset_fold_spec _ _ _ hres
      obtain ⟨u_f, u_b, u_r, u_c, u_l, u_unch, u_cov⟩ := update_fold_spec _ _ _ hfold
      have hcols : scr.data.cols = b.screen.data.cols := u_c.trans r_c
      have hrows : scr.data.rows = b.screen.data.rows := u_r.trans r_r
      refine ⟨u_b.trans r_b, hrows, hcols, ?_, ?_⟩
      · intro q hqx hqy hnone
        have h1 := u_unch q (by rw [r_c]; exact hqx) (by rw [r_r]; exact hqy) hnone
        rw [r_c] at h1
        have h2 := r_set q (mem_allPositions.mpr ⟨hqx, hqy⟩)
        have h3 := h1.trans h2
        rw [List.get?_eq_getElem?] at h3
        simp [Array2D.indexE, Array2D.inRange, hcols, hrows, hqx, hqy, h3]
      · intro q s hs hcov hcount
        have h4 := u_cov q s hs hcov hcount
        rw [r_c, r_r] at h4
        obtain ⟨hqx, hqy, w, hpix, hval⟩ := h4
        refine ⟨w, hpix, ?_⟩
        rw [List.get?_eq_getElem?] at hval
        simp [Array2D.indexE, Array2D.inRange, hcols, hrows, hqx, hqy, hval]

/-- A 1x1 sprite holding the single value 5, placed at `(1,0)`. -/
def spW : Sprite :=
  { pixels := { data := { elements := [5], rows := 1, cols := 1 }
                foreground := 5, background := 0 }
    pos := ⟨1, 0⟩
    bounds := { top_left := ⟨1, 0⟩, bottom_right := ⟨1, 0⟩ } }

/-- A 3x2 board holding `spW`, before update. -/
def bw : Board := { sprites := [spW], screen := Bitmap.new 3 2 1 0 }

/-- The board `bw` after update: the sprite's cell copied at `(1,0)`,
background elsewhere. -/
def bwAfter : Board :=
  { sprites := [spW]
    screen := { data := { elements := [0, 5, 0, 0, 0, 0], rows := 2, cols := 3 }
                foreground := 1, background := 0 } }

/-- Witness for C3: on the concrete board `bw`, `update` completes, the
uncovered coordinate `(0,0)` reads the background, and the covered
coordinate `(1,0)` reads the sprite's translated cell. -/
theorem board_update_screen_composition_witness :
    Board.update bw = .ok bwAfter ∧
    bwAfter.screen.data.indexE ⟨0, 0⟩ = some 0 ∧
    (∃ w, spW.pixels.data.indexE ⟨0, 0⟩ = some w ∧
      bwAfter.screen.data.indexE ⟨1, 0⟩ = some w) := by
  have hupd : Board.update bw = .ok bwAfter := by rfl
  have h := board_update_screen_composition bw bwAfter hupd
  refine ⟨hupd, ?_, ?_⟩
  · exact h.2.2.2.1 ⟨0, 0⟩ (by decide) (by decide)
      (fun s hs => by simp only [bw] at hs; simp at hs; subst hs; decide)
  · exact h.2.2.2.2 ⟨1, 0⟩ spW (by simp [bw]) (by decide) (by decide)

/-- A 1x1 sprite placed at `(5,5)`, outside a small screen. -/
def spOut : Sprite :=
  { pixels := { data := { elements := [7], rows := 1, cols := 1 }
                foreground := 7, background := 0 }
    pos := ⟨5, 5⟩
    bounds := { top_left := ⟨5, 5⟩, bottom_right := ⟨5, 5⟩ } }

/-- C4 counterexample.  The claim states that an admitted sprite placed
outside the screen's dimensions makes `update()` fail with the
board-invariant violation and no other failure kind; on the code, such a
sprite instead trips the grid's bounds check — the out-of-range abort, a
different failure kind — before the background comparison is ever
reached. -/
theorem update_out_of_screen_error_kind :
    Board.update { sprites := [spOut], screen := Bitmap.new 3 3 1 0 } =
      .error UpdateFailure.outOfRange ∧
    UpdateFailure.outOfRange ≠ UpdateFailure.invariantViolation :=
  ⟨rfl, by decide⟩

/-- C4 as amended.  Before each per-cell write, `update`'s loop body reads
the target screen cell and compares it with the screen's background: an
in-range cell that fails the comparison aborts with the board-invariant
violation, while a target outside the screen's dimensions aborts with the
out-of-range failure raised by the grid access itself. -/
theorem update_cell_background_check (scr : Bitmap) (s : Sprite) (p : Position) :
    (¬ (p.x + s.pos.x < scr.data.cols ∧ p.y + s.pos.y < scr.data.rows) →
      updateCell scr s p = .error UpdateFailure.outOfRange) ∧
    (∀ v, scr.data.indexE ⟨p.x + s.pos.x, p.y + s.pos.y⟩ = some v →
      v ≠ scr.background →
      updateCell scr s p = .error UpdateFailure.invariantViolation) := by
  constructor
  · intro hout
    have hnr : ¬ (scr.data.inRange ⟨p.x + s.pos.x, p.y + s.pos.y⟩ = true) := by
      simp only [Array2D.inRange, Bool.and_eq_true, decide_eq_true_eq]
      exact hout
    have hnone : scr.data.indexE ⟨p.x + s.pos.x, p.y + s.pos.y⟩ = none := by
      simp [Array2D.indexE, hnr]
    unfold updateCell
    rw [hnone]
  · intro v hv hne
    unfold updateCell
    rw [hv]
    simp [hne]

/-- A 1x1 screen whose single cell already holds a non-background value. -/
def occScreen : Bitmap :=
  { data := { elements := [3], rows := 1, cols := 1 }
    foreground := 1, background := 0 }

/-- Witness for C4's amended statement: the out-of-screen sprite `spOut`
yields the out-of-range failure on a 3x3 screen, and an in-range
non-background cell yields the invariant violation. -/
theorem update_cell_background_check_witness :
    updateCell (Bitmap.new 3 3 1 0) spOut ⟨0, 0⟩ =
      .error UpdateFailure.outOfRange ∧
    updateCell occScreen spFgRight ⟨0, 0⟩ =
      .error UpdateFailure.invariantViolation :=
  ⟨(update_cell_background_check (Bitmap.new 3 3 1 0) spOut ⟨0, 0⟩).1 (by decide),
   (update_cell_background_check occScreen spFgRight ⟨0, 0⟩).2 3 rfl (by decide)⟩

end Invaders
